import Mathlib

/-!
# cudaPcl `OpenniVisualizer`: frame store, dirty flag and render loop

A shallow embedding of `include/cudaPcl/openniVisualizer.hpp`.

* `cv::Mat` is a record of `rows`, `cols` and the row-major list of elements.
* The members of `OpenniVisualizer` that the callbacks and the render loop
  touch are the fields of one record; the effects of `cv::imshow`,
  `cv::imwrite`, `std::cout` and of the PCL viewer are appended to logs that
  are fields of the same record.
* Every block executed under `updateModelMutex` is one atomic step.
* The scale factor of `cv::Mat::convertTo` is a `float`/`double` in the
  source.  Here it is an exact rational number: the arithmetic
  `saturate_cast<uchar>(src * alpha + beta)` is carried out in `ℚ`, and
  `cvRound` rounds to the nearest integer with ties to even.
* The JET lookup table of `cv::applyColorMap` belongs to OpenCV; it is a
  parameter `jet` of the embedding.
-/

namespace cudaPcl

/-! ## Data model -/

/-- Matrix header and payload of a `cv::Mat`: `rows`, `cols`, and the elements
in row-major order. -/
structure Mat (α : Type) where
  rows : Nat
  cols : Nat
  data : List α
deriving DecidableEq

/-- Three-channel 8-bit pixel (`CV_8UC3`). -/
abbrev Vec3b : Type := Nat × Nat × Nat

/-- Default-constructed `cv::Mat`: no rows, no columns, no data. -/
def Mat.empty {α : Type} : Mat α := ⟨0, 0, []⟩

/-- Deep copy, `cv::Mat::clone`. -/
def Mat.clone {α : Type} (m : Mat α) : Mat α := ⟨m.rows, m.cols, m.data⟩

/-- Guard used throughout the source: `m.rows > 0 && m.cols > 0`. -/
def Mat.nonEmpty {α : Type} (m : Mat α) : Bool :=
  decide (0 < m.rows) && decide (0 < m.cols)

/-! ## Depth colouring -/

/-- Nearest integer, ties to even: `cvRound`. -/
def cvRound (x : ℚ) : ℤ :=
  let f := ⌊x⌋
  if x - f < 1 / 2 then f
  else if 1 / 2 < x - f then f + 1
  else if f % 2 = 0 then f else f + 1

/-- Saturation `cv::saturate_cast<uchar>(int v)`:
`(unsigned)v <= UCHAR_MAX ? v : v > 0 ? UCHAR_MAX : 0`. -/
def saturate_cast_uchar (v : ℤ) : Nat :=
  if 0 ≤ v ∧ v ≤ 255 then v.toNat else if 0 < v then 255 else 0

/-- One element of `src.convertTo(dst, CV_8UC1, alpha, beta)`:
`saturate_cast<uchar>(src * alpha + beta)`. -/
def convertTo8U (alpha beta : ℚ) (r : Nat) : Nat :=
  saturate_cast_uchar (cvRound ((r : ℚ) * alpha + beta))

/-- Conversion `src.convertTo(dst, CV_8UC1, alpha, beta)`: the destination
has the size of the source. -/
def Mat.convertTo (src : Mat Nat) (alpha beta : ℚ) : Mat Nat :=
  ⟨src.rows, src.cols, src.data.map (convertTo8U alpha beta)⟩

/-- Palette lookup `cv::applyColorMap(src, dst, cv::COLORMAP_JET)`: every
8-bit value is replaced by its palette entry; the size is kept. -/
def applyColorMap (jet : Nat → Vec3b) (src : Mat Nat) : Mat Vec3b :=
  ⟨src.rows, src.cols, src.data.map jet⟩

/-- The local `d8Bit` of `colorizeDepth(dMap, min, max)` after
`dMap.convertTo(d8Bit, CV_8UC1, 255./(max-min))`, before the palette
lookup. -/
def colorizeDepth_d8Bit (dMap : Mat Nat) (min max : ℚ) : Mat Nat :=
  dMap.convertTo (255 / (max - min)) 0

/-- Fixed-range overload `colorizeDepth(const cv::Mat& dMap, float min, float max)`. -/
def colorizeDepth (jet : Nat → Vec3b) (dMap : Mat Nat) (min max : ℚ) : Mat Vec3b :=
  applyColorMap jet (colorizeDepth_d8Bit dMap min max)

/-- Extremal samples `cv::minMaxLoc(dMap, &min, &max)` of a frame. -/
def minMaxLoc (dMap : Mat Nat) : Nat × Nat :=
  (dMap.data.foldl Nat.min (dMap.data.headD 0), dMap.data.foldl Nat.max 0)

/-- The local `d8Bit` of the one-argument `colorizeDepth(dMap)`: the range is
taken from `cv::minMaxLoc`, the scale is again `255./(max-min)`. -/
def colorizeDepthAuto_d8Bit (dMap : Mat Nat) : Mat Nat :=
  let mm := minMaxLoc dMap
  dMap.convertTo (255 / ((mm.2 : ℚ) - (mm.1 : ℚ))) 0

/-- One-argument overload `colorizeDepth(const cv::Mat& dMap)`. -/
def colorizeDepthAuto (jet : Nat → Vec3b) (dMap : Mat Nat) : Mat Vec3b :=
  applyColorMap jet (colorizeDepthAuto_d8Bit dMap)

/-! ## The visualizer object -/

/-- Frame handed to `rgb_cb_` by the grabber (`openni_wrapper::Image`):
`getWidth()`, `getHeight()` and the pixels that `fillRGB` writes. -/
structure OpenniImage where
  getWidth : Nat
  getHeight : Nat
  pixels : List Vec3b
deriving DecidableEq

/-- Payload of a file written by `cv::imwrite`. -/
inductive FileContent where
  | color (m : Mat Vec3b)
  | depth (m : Mat Nat)
deriving DecidableEq

/-- Members of `OpenniVisualizer` (with `rgb_` inherited from `OpenniGrabber`),
the function-local `static int64_t frameId` of `visualize_` (a natural number:
it starts at 0 and is only incremented, and its wrap-around after `2^63` render
passes is left out), the ids of the clouds held by `viewer_`, and the logs of
the output calls:
`shown` for `cv::imshow(tag, image)`, `written` for `cv::imwrite(name, image)`,
`console` for the lines sent to `std::cout`. -/
structure OpenniVisualizer where
  visualizeCloud_ : Bool
  update_ : Bool
  dColor_ : Mat Vec3b
  d_ : Mat Nat
  rgb_ : Mat Vec3b
  viewer_ : List String
  frameId : Nat
  shown : List (String × Mat Vec3b)
  written : List (String × FileContent)
  console : List String

/-- Constructor `OpenniVisualizer(bool visualizeCloud)`: `update_(false)`, all
frames default-constructed, nothing output yet. -/
def OpenniVisualizer.construct (visualizeCloud : Bool) : OpenniVisualizer :=
  { visualizeCloud_ := visualizeCloud, update_ := false,
    dColor_ := Mat.empty, d_ := Mat.empty, rgb_ := Mat.empty,
    viewer_ := [], frameId := 0, shown := [], written := [], console := [] }

/-- Arguments of `depth_cb(const uint16_t* depth, uint32_t w, uint32_t h)`. -/
structure DepthArgs where
  depth : List Nat
  w : Nat
  h : Nat
deriving DecidableEq

/-- Header `cv::Mat(h, w, CV_16U, depth)` built at the start of `depth_cb`. -/
def DepthArgs.dMap (a : DepthArgs) : Mat Nat := ⟨a.h, a.w, a.depth⟩

/-- First locked block of `depth_cb`:
`dColor_ = colorizeDepth(dMap, 30., 4000.); d_ = dMap.clone();`. -/
def depth_cb_store (jet : Nat → Vec3b) (s : OpenniVisualizer) (a : DepthArgs) :
    OpenniVisualizer :=
  let s1 := { s with dColor_ := colorizeDepth jet a.dMap 30 4000 }
  { s1 with d_ := a.dMap.clone }

/-- Method `update()`: under the lock, `update_ = true`. -/
def update (s : OpenniVisualizer) : OpenniVisualizer :=
  { s with update_ := true }

/-- Whole callback `depth_cb`: the locked store block, then `this->update()`. -/
def depth_cb (jet : Nat → Vec3b) (s : OpenniVisualizer) (a : DepthArgs) :
    OpenniVisualizer :=
  update (depth_cb_store jet s a)

/-- Channel swap `cv::cvtColor(src, dst, CV_BGR2RGB)`: the destination is
created with the size of the source and holds the pixels with the first and
third channel exchanged. -/
def cvtColor_BGR2RGB (src : Mat Vec3b) : Mat Vec3b :=
  ⟨src.rows, src.cols, src.data.map (fun p => (p.2.2, p.2.1, p.1))⟩

/-- Callback `rgb_cb_`, one locked block: reallocate `rgb_` when it is
narrower than the frame, fill a fresh `h x w` image from the frame, convert it
into `rgb_`.  The final call `rgb_cb(rgb_.data, w, h)` is the hook of the base
class `OpenniGrabber`; this class does not override it, the base class has no
access to `update_`, `d_` or `dColor_`, and it is taken to leave the fields of
this record alone. -/
def rgb_cb_ (s : OpenniVisualizer) (rgb : OpenniImage) : OpenniVisualizer :=
  let w := rgb.getWidth
  let h := rgb.getHeight
  let s1 := if s.rgb_.cols < w
    then { s with rgb_ := ⟨h, w, List.replicate (h * w) (0, 0, 0)⟩ } else s
  let Irgb : Mat Vec3b := ⟨h, w, rgb.pixels⟩
  { s1 with rgb_ := cvtColor_BGR2RGB Irgb }

/-! ## Rendering -/

/-- Character of one decimal digit. -/
def digitChar (d : Nat) : Char := Char.ofNat (48 + d)

/-- Decimal text of a non-negative integer, as `operator<<` prints it. -/
def decimal (n : Nat) : List Char :=
  if n = 0 then ['0'] else (Nat.digits 10 n).reverse.map digitChar

/-- Number denoted by a text of decimal digits, most significant digit first. -/
def decimalValue (txt : List Char) : Nat :=
  txt.foldl (fun acc c => 10 * acc + (c.toNat - 48)) 0

/-- Field padding of `std::setfill(c) << std::setw(w)`: the text is padded on
the left with `c` up to width `w`; a longer text is left as it is. -/
def setw_setfill (w : Nat) (c : Char) (txt : List Char) : List Char :=
  List.replicate (w - txt.length) c ++ txt

/-- Method `visualizeRGB`. -/
def visualizeRGB (s : OpenniVisualizer) : OpenniVisualizer :=
  if s.rgb_.nonEmpty then { s with shown := s.shown ++ [("rgb", s.rgb_)] } else s

/-- Method `visualizeD`. -/
def visualizeD (s : OpenniVisualizer) : OpenniVisualizer :=
  if s.dColor_.nonEmpty then { s with shown := s.shown ++ [("d", s.dColor_)] } else s

/-- Method `visualizePC`: nothing when the cloud view is off; otherwise
`updatePointCloud(pc_, "pc")`, and `addPointCloud(pc_, "pc")` when the viewer
holds no cloud of that id. -/
def visualizePC (s : OpenniVisualizer) : OpenniVisualizer :=
  if !s.visualizeCloud_ then s
  else if "pc" ∈ s.viewer_ then s
  else { s with viewer_ := s.viewer_ ++ ["pc"] }

/-- The string `ss.str()` built in `visualize_`:
`"./frame_" << setfill('0') << setw(9) << frameId << "_"`. -/
def framePrefix (frameId : Nat) : String :=
  "./frame_" ++ String.mk (setw_setfill 9 '0' (decimal frameId)) ++ "_"

/-- Method `visualize_(char key)`: one render pass. -/
def visualize_ (s : OpenniVisualizer) (key : Char) : OpenniVisualizer :=
  let s1 := visualizePC (visualizeD (visualizeRGB s))
  let s2 :=
    if key = 's' then
      let s3 := { s1 with console := s1.console ++ ["key: " ++ key.toString] }
      let ss := framePrefix s3.frameId
      let s4 := if s3.rgb_.nonEmpty
        then { s3 with written := s3.written ++ [(ss ++ "_rgb.png", FileContent.color s3.rgb_)] }
        else s3
      if s4.dColor_.nonEmpty
        then { s4 with
                written := s4.written ++ [(ss ++ "_d.png", FileContent.depth s4.d_)],
                console := s4.console ++
                  [String.mk (decimal s4.d_.rows) ++ "x" ++ String.mk (decimal s4.d_.cols)] }
        else s4
    else s1
  { s2 with frameId := s2.frameId + 1 }

/-- Locked block of one iteration of the loops of `visualizerThread`:
`if (update_) { visualize_(key); update_ = false; }`. -/
def renderTick (s : OpenniVisualizer) (key : Char) : OpenniVisualizer :=
  if s.update_ then { visualize_ s key with update_ := false } else s

/-- Loop `while (!viewer_->wasStopped()) { ... }` of the cloud branch of
`visualizerThread`, run for at most `fuel` iterations starting with
iteration number `i`.  `wasStopped i` is what the viewer answers at the head
of iteration `i`, `waitKey i` the key polled in it; `viewer_->spinOnce(10)`
touches no member.  The Boolean of the result tells whether the loop was
left. -/
def cloudLoop (wasStopped : Nat → Bool) (waitKey : Nat → Char) :
    Nat → Nat → OpenniVisualizer → OpenniVisualizer × Bool
  | 0, _, s => (s, false)
  | fuel + 1, i, s =>
    if wasStopped i then (s, true)
    else cloudLoop wasStopped waitKey fuel (i + 1) (renderTick s (waitKey i))

/-- Loop `while (42) { ... }` of the other branch of `visualizerThread`. -/
def plainLoop (waitKey : Nat → Char) :
    Nat → Nat → OpenniVisualizer → OpenniVisualizer × Bool
  | 0, _, s => (s, false)
  | fuel + 1, i, s => plainLoop waitKey fuel (i + 1) (renderTick s (waitKey i))

/-- Method `visualizerThread` with no producer running: a fresh viewer and the
stoppable loop when `visualizeCloud_`, the unconditional loop otherwise. -/
def visualizerThread (wasStopped : Nat → Bool) (waitKey : Nat → Char) (fuel : Nat)
    (s : OpenniVisualizer) : OpenniVisualizer × Bool :=
  if s.visualizeCloud_ then cloudLoop wasStopped waitKey fuel 0 { s with viewer_ := [] }
  else plainLoop waitKey fuel 0 s

/-- Control points of `run()`. -/
inductive RunPc where
  | spawnThread
  | run_impl
  | idle
  | run_cleanup_impl
  | join
  | returned
deriving DecidableEq

/-- One step of `run()`.  `idle` is `while (42) sleep(seconds(1));`: its
condition is the constant 42, so whether shutdown has been requested is not
read. -/
def run_step (_shutdownRequested : Bool) : RunPc → RunPc
  | RunPc.spawnThread => RunPc.run_impl
  | RunPc.run_impl => RunPc.idle
  | RunPc.idle => RunPc.idle
  | RunPc.run_cleanup_impl => RunPc.join
  | RunPc.join => RunPc.returned
  | RunPc.returned => RunPc.returned

/-- Method `run()` followed for as many steps as `shutdown` has entries, the
entry telling whether shutdown has been requested by that step. -/
def run_trace (shutdown : List Bool) : RunPc :=
  shutdown.foldl (fun pc b => run_step b pc) RunPc.spawnThread

/-! ## Interleavings of the locked blocks -/

/-- The blocks that run under `updateModelMutex`. -/
inductive Block where
  | depth_cb_store (a : DepthArgs)
  | update
  | rgb_cb_ (rgb : OpenniImage)
  | renderTick (key : Char)
deriving DecidableEq

/-- Visualizer together with the bookkeeping of the interleaving:
`pendingUpdate` counts the `depth_cb` calls that have left their store block
and not yet run `update()`; `depthFresh` tells whether `d_`/`dColor_` were
overwritten after the last render pass. -/
structure Sys where
  vis : OpenniVisualizer
  pendingUpdate : Nat
  depthFresh : Bool

/-- State right after the constructor. -/
def Sys.construct (visualizeCloud : Bool) : Sys :=
  ⟨OpenniVisualizer.construct visualizeCloud, 0, false⟩

/-- Execute one block.  `update()` is only called by `depth_cb` after its
store block, hence only with a pending call. -/
def exec (jet : Nat → Vec3b) (s : Sys) : Block → Option Sys
  | Block.depth_cb_store a =>
    some ⟨depth_cb_store jet s.vis a, s.pendingUpdate + 1, true⟩
  | Block.update =>
    if 0 < s.pendingUpdate then some ⟨update s.vis, s.pendingUpdate - 1, s.depthFresh⟩
    else none
  | Block.rgb_cb_ rgb => some ⟨rgb_cb_ s.vis rgb, s.pendingUpdate, s.depthFresh⟩
  | Block.renderTick key =>
    some ⟨renderTick s.vis key, s.pendingUpdate, s.depthFresh && !s.vis.update_⟩

/-- Execute a schedule of blocks, the mutex being free before, between and
after them. -/
def execAll (jet : Nat → Vec3b) : Sys → List Block → Option Sys
  | s, [] => some s
  | s, b :: bs => (exec jet s b).bind (fun t => execAll jet t bs)

/-- A depth block carries a frame with at least one row and one column. -/
def Block.nonEmptyFrame : Block → Bool
  | Block.depth_cb_store a => decide (0 < a.w) && decide (0 < a.h)
  | _ => true

/-! ## Rounding and saturation -/

theorem cvRound_near (x : ℚ) : |((cvRound x : ℤ) : ℚ) - x| ≤ 1 / 2 := by
  have h1 : ((⌊x⌋ : ℤ) : ℚ) ≤ x := Int.floor_le x
  have h2 : x < ((⌊x⌋ : ℤ) : ℚ) + 1 := Int.lt_floor_add_one x
  unfold cvRound
  simp only []
  rw [abs_le]
  split_ifs with a b c
  · constructor <;> linarith
  · push_cast; constructor <;> linarith
  · rw [not_lt] at a b; constructor <;> linarith
  · rw [not_lt] at a b; push_cast; constructor <;> linarith

theorem cvRound_mono {x y : ℚ} (h : x ≤ y) : cvRound x ≤ cvRound y := by
  by_contra hc
  push_neg at hc
  have hx := abs_le.mp (cvRound_near x)
  have hy := abs_le.mp (cvRound_near y)
  have hq : ((cvRound y : ℤ) : ℚ) + 1 ≤ ((cvRound x : ℤ) : ℚ) := by exact_mod_cast hc
  have hxy : x = y := by linarith [hx.1, hx.2, hy.1, hy.2]
  subst hxy
  exact lt_irrefl _ hc

theorem cvRound_intCast (n : ℤ) : cvRound (n : ℚ) = n := by
  unfold cvRound
  simp

theorem cvRound_eq_zero_iff {x : ℚ} (h0 : 0 ≤ x) : cvRound x = 0 ↔ x ≤ 1 / 2 := by
  constructor
  · intro h
    have hx := abs_le.mp (cvRound_near x)
    rw [h] at hx
    push_cast at hx
    linarith [hx.1]
  · intro h
    have hf : ⌊x⌋ = 0 := by
      rw [Int.floor_eq_iff]
      constructor
      · simpa using h0
      · push_cast; linarith
    unfold cvRound
    simp only [hf]
    split_ifs with a b c
    · rfl
    · exfalso; push_cast at b; linarith
    · rfl
    · exfalso; exact c (by decide)

theorem saturate_cast_uchar_eq_clamp (v : ℤ) :
    saturate_cast_uchar v = (max 0 (min v 255)).toNat := by
  unfold saturate_cast_uchar
  split_ifs with a b
  · rw [min_eq_left a.2, max_eq_right a.1]
  · have : 255 < v := by
      by_contra hc
      exact a ⟨le_of_lt b, not_lt.mp hc⟩
    rw [min_eq_right (le_of_lt this)]
    rfl
  · have : v ≤ 0 := not_lt.mp b
    rw [min_eq_left (by linarith), max_eq_left this]
    rfl

theorem saturate_cast_uchar_mono {a b : ℤ} (h : a ≤ b) :
    saturate_cast_uchar a ≤ saturate_cast_uchar b := by
  rw [saturate_cast_uchar_eq_clamp, saturate_cast_uchar_eq_clamp]
  apply Int.toNat_le_toNat
  exact max_le_max le_rfl (min_le_min h le_rfl)

theorem saturate_cast_uchar_le (v : ℤ) : saturate_cast_uchar v ≤ 255 := by
  unfold saturate_cast_uchar
  split_ifs with a b
  · omega
  · exact le_rfl
  · exact Nat.zero_le _

/-! ## Depth scaling -/

theorem getElem?_convertTo (src : Mat Nat) (alpha beta : ℚ) (i : Nat) :
    (src.convertTo alpha beta).data[i]? = (src.data[i]?).map (convertTo8U alpha beta) := by
  simp [Mat.convertTo]

/-- C3. Fixed-range depth scaling: for every range `min < max` and every raw
sample `r` of a frame, the value stored for it in `d8Bit` by
`colorizeDepth(dMap, min, max)` is an integer nearest to
`r * 255 / (max - min)`, clamped to `[0, 255]`; the frame keeps its size; and
with the range `[30, 4000]` of `depth_cb` the samples 100, 200, 300, 4000 give
6, 13, 19, 255. -/
theorem colorizeDepth_d8Bit_scaling (min max : ℚ) (_hlt : min < max) :
    (∀ (dMap : Mat Nat) (i r : Nat), dMap.data[i]? = some r →
      ∃ n : ℤ, |(n : ℚ) - (r : ℚ) * 255 / (max - min)| ≤ 1 / 2 ∧
        (colorizeDepth_d8Bit dMap min max).data[i]? = some (Max.max 0 (Min.min n 255)).toNat) ∧
    (∀ dMap : Mat Nat, (colorizeDepth_d8Bit dMap min max).rows = dMap.rows ∧
      (colorizeDepth_d8Bit dMap min max).cols = dMap.cols) ∧
    (colorizeDepth_d8Bit ⟨2, 2, [100, 200, 300, 4000]⟩ 30 4000).data = [6, 13, 19, 255] := by
  refine ⟨?_, ?_, ?_⟩
  · intro dMap i r hr
    refine ⟨cvRound ((r : ℚ) * (255 / (max - min)) + 0), ?_, ?_⟩
    · have h := cvRound_near ((r : ℚ) * (255 / (max - min)) + 0)
      have e : (r : ℚ) * (255 / (max - min)) + 0 = (r : ℚ) * 255 / (max - min) := by
        rw [add_zero, mul_div_assoc]
      rw [e] at h ⊢
      exact h
    · unfold colorizeDepth_d8Bit
      rw [getElem?_convertTo, hr]
      simp only [Option.map_some', convertTo8U, saturate_cast_uchar_eq_clamp]
  · intro dMap
    exact ⟨rfl, rfl⟩
  · norm_num [colorizeDepth_d8Bit, Mat.convertTo, convertTo8U, cvRound, saturate_cast_uchar]
    refine ⟨?_, ?_, ?_⟩ <;> rfl

/-- Witness for C3 at the range of `depth_cb`. -/
theorem colorizeDepth_d8Bit_scaling_witness :
    (∀ (dMap : Mat Nat) (i r : Nat), dMap.data[i]? = some r →
      ∃ n : ℤ, |(n : ℚ) - (r : ℚ) * 255 / (4000 - 30)| ≤ 1 / 2 ∧
        (colorizeDepth_d8Bit dMap 30 4000).data[i]? = some (Max.max 0 (Min.min n 255)).toNat) ∧
    (∀ dMap : Mat Nat, (colorizeDepth_d8Bit dMap 30 4000).rows = dMap.rows ∧
      (colorizeDepth_d8Bit dMap 30 4000).cols = dMap.cols) ∧
    (colorizeDepth_d8Bit ⟨2, 2, [100, 200, 300, 4000]⟩ 30 4000).data = [6, 13, 19, 255] :=
  colorizeDepth_d8Bit_scaling 30 4000 (by norm_num)
theorem convertTo8U_mono {alpha : ℚ} (ha : 0 ≤ alpha) (beta : ℚ) {d1 d2 : Nat} (h : d1 ≤ d2) :
    convertTo8U alpha beta d1 ≤ convertTo8U alpha beta d2 := by
  unfold convertTo8U
  apply saturate_cast_uchar_mono
  apply cvRound_mono
  have hc : (d1 : ℚ) ≤ (d2 : ℚ) := by exact_mod_cast h
  have := mul_le_mul_of_nonneg_right hc ha
  linarith

/-- C4. Colour-map monotonicity: for every range `min < max` and raw samples
`d1 < d2` with `min ≤ d1` and `d2 ≤ max`, the 8-bit value that the fixed-range
`colorizeDepth` stores in `d8Bit` for `d1` is at most the one it stores for
`d2`, wherever the two samples stand in the frames coloured. -/
theorem colorizeDepth_d8Bit_monotone (min max : ℚ) (hlt : min < max) (d1 d2 : Nat)
    (_h1 : min ≤ (d1 : ℚ)) (h12 : d1 < d2) (_h2 : (d2 : ℚ) ≤ max)
    (A B : Mat Nat) (i j v1 v2 : Nat)
    (hi : A.data[i]? = some d1) (hj : B.data[j]? = some d2)
    (hv1 : (colorizeDepth_d8Bit A min max).data[i]? = some v1)
    (hv2 : (colorizeDepth_d8Bit B min max).data[j]? = some v2) : v1 ≤ v2 := by
  unfold colorizeDepth_d8Bit at hv1 hv2
  rw [getElem?_convertTo, hi] at hv1
  rw [getElem?_convertTo, hj] at hv2
  simp only [Option.map_some', Option.some.injEq] at hv1 hv2
  rw [← hv1, ← hv2]
  have hpos : (0 : ℚ) ≤ 255 / (max - min) :=
    div_nonneg (by norm_num) (by linarith)
  exact convertTo8U_mono hpos 0 (le_of_lt h12)

/-- Witness for C4: the samples 1000 and 2000 in one frame, range `[30, 4000]`. -/
theorem colorizeDepth_d8Bit_monotone_witness :
    (colorizeDepth_d8Bit ⟨1, 2, [1000, 2000]⟩ 30 4000).data = [64, 128] ∧ (64 : Nat) ≤ 128 := by
  have e : (colorizeDepth_d8Bit ⟨1, 2, [1000, 2000]⟩ 30 4000).data = [64, 128] := by
    norm_num [colorizeDepth_d8Bit, Mat.convertTo, convertTo8U, cvRound, saturate_cast_uchar]
    constructor <;> rfl
  refine ⟨e, ?_⟩
  exact colorizeDepth_d8Bit_monotone 30 4000 (by norm_num) 1000 2000 (by norm_num)
    (by norm_num) (by norm_num) ⟨1, 2, [1000, 2000]⟩ ⟨1, 2, [1000, 2000]⟩ 0 1 64 128 rfl rfl
    (by rw [e]; rfl) (by rw [e]; rfl)
/-! ## Auto-contrast -/

theorem foldl_min_le_init (l : List Nat) (a : Nat) : l.foldl Nat.min a ≤ a := by
  induction l generalizing a with
  | nil => exact le_rfl
  | cons x xs ih => exact le_trans (ih (Nat.min a x)) (Nat.min_le_left a x)

theorem foldl_min_le_mem (l : List Nat) (a x : Nat) (hx : x ∈ l) : l.foldl Nat.min a ≤ x := by
  induction l generalizing a with
  | nil => cases hx
  | cons y ys ih =>
    rcases List.mem_cons.mp hx with h | h
    · subst h
      exact le_trans (foldl_min_le_init ys (Nat.min a x)) (Nat.min_le_right a x)
    · exact ih (Nat.min a y) h

theorem le_foldl_min (l : List Nat) (a b : Nat) (ha : b ≤ a) (hl : ∀ x ∈ l, b ≤ x) :
    b ≤ l.foldl Nat.min a := by
  induction l generalizing a with
  | nil => exact ha
  | cons y ys ih =>
    exact ih (Nat.min a y) (Nat.le_min.mpr ⟨ha, hl y (List.mem_cons_self y ys)⟩)
      (fun x hx => hl x (List.mem_cons_of_mem y hx))

theorem le_foldl_max_init (l : List Nat) (a : Nat) : a ≤ l.foldl Nat.max a := by
  induction l generalizing a with
  | nil => exact le_rfl
  | cons x xs ih => exact le_trans (Nat.le_max_left a x) (ih (Nat.max a x))

theorem mem_le_foldl_max (l : List Nat) (a x : Nat) (hx : x ∈ l) : x ≤ l.foldl Nat.max a := by
  induction l generalizing a with
  | nil => cases hx
  | cons y ys ih =>
    rcases List.mem_cons.mp hx with h | h
    · subst h
      exact le_trans (Nat.le_max_right a x) (le_foldl_max_init ys (Nat.max a x))
    · exact ih (Nat.max a y) h

theorem foldl_max_le (l : List Nat) (a b : Nat) (ha : a ≤ b) (hl : ∀ x ∈ l, x ≤ b) :
    l.foldl Nat.max a ≤ b := by
  induction l generalizing a with
  | nil => exact ha
  | cons y ys ih =>
    exact ih (Nat.max a y) (Nat.max_le.mpr ⟨ha, hl y (List.mem_cons_self y ys)⟩)
      (fun x hx => hl x (List.mem_cons_of_mem y hx))

theorem minMaxLoc_eq (dMap : Mat Nat) (lo hi : Nat) (hlo : lo ∈ dMap.data)
    (hhi : hi ∈ dMap.data) (hb : ∀ x ∈ dMap.data, lo ≤ x ∧ x ≤ hi) :
    minMaxLoc dMap = (lo, hi) := by
  unfold minMaxLoc
  have hhead : dMap.data.headD 0 ∈ dMap.data := by
    cases hd : dMap.data with
    | nil => rw [hd] at hlo; cases hlo
    | cons y ys => simp
  refine Prod.ext ?_ ?_
  · exact le_antisymm (foldl_min_le_mem _ _ _ hlo)
      (le_foldl_min _ _ _ (hb _ hhead).1 (fun x hx => (hb x hx).1))
  · exact le_antisymm (foldl_max_le _ _ _ (Nat.zero_le _) (fun x hx => (hb x hx).2))
      (mem_le_foldl_max _ _ _ hhi)

theorem convertTo8U_eq_255 {alpha : ℚ} {r : Nat} (h : 255 ≤ (r : ℚ) * alpha) :
    convertTo8U alpha 0 r = 255 := by
  unfold convertTo8U
  apply le_antisymm (saturate_cast_uchar_le _)
  have h1 : cvRound ((255 : ℤ) : ℚ) ≤ cvRound ((r : ℚ) * alpha + 0) :=
    cvRound_mono (by push_cast; linarith)
  rw [cvRound_intCast] at h1
  have h2 := saturate_cast_uchar_mono h1
  have h3 : saturate_cast_uchar 255 = 255 := by decide
  rw [h3] at h2
  exact h2

theorem convertTo8U_eq_zero_iff {alpha : ℚ} {r : Nat} (h : 0 ≤ (r : ℚ) * alpha) :
    convertTo8U alpha 0 r = 0 ↔ (r : ℚ) * alpha ≤ 1 / 2 := by
  unfold convertTo8U
  rw [add_zero, ← cvRound_eq_zero_iff h]
  have hn : 0 ≤ cvRound ((r : ℚ) * alpha) := by
    have := cvRound_mono h
    have e : cvRound (0 : ℚ) = 0 := by
      have := cvRound_intCast 0
      simpa using this
    rw [e] at this
    exact this
  rw [saturate_cast_uchar_eq_clamp]
  constructor
  · intro hz
    by_contra hne
    have hpos : 0 < cvRound ((r : ℚ) * alpha) := lt_of_le_of_ne hn (Ne.symm hne)
    have : 0 < (max 0 (min (cvRound ((r : ℚ) * alpha)) 255)).toNat := by
      rw [Int.lt_toNat]
      exact lt_max_of_lt_right (lt_min hpos (by norm_num))
    omega
  · intro hz
    rw [hz]
    rfl

/-- C5 as stated fails: in the frame with the samples 100 and 200 the extrema
are `lo = 100` and `hi = 200`, and the one-argument `colorizeDepth` stores 255
for the sample `lo`, not 0. -/
theorem colorizeDepthAuto_lo_not_zero :
    minMaxLoc ⟨1, 2, [100, 200]⟩ = (100, 200) ∧
    (colorizeDepthAuto_d8Bit ⟨1, 2, [100, 200]⟩).data = [255, 255] := by
  constructor
  · rfl
  · have e : minMaxLoc ⟨1, 2, [100, 200]⟩ = (100, 200) := rfl
    norm_num [colorizeDepthAuto_d8Bit, e, Mat.convertTo, convertTo8U, cvRound,
      saturate_cast_uchar]
    rfl

/-- C5, amended. Auto-contrast scaling: in a frame whose smallest sample is `lo`
and whose largest sample is `hi`, `lo < hi`, the one-argument `colorizeDepth`
stores 255 in `d8Bit` for every sample equal to `hi`; for a sample equal to
`lo` it stores 0 exactly when `510 * lo ≤ hi - lo` (so when `lo = 0`), since
the scale `255 / (hi - lo)` is applied to the sample itself with no offset. -/
theorem colorizeDepthAuto_d8Bit_scaling (dMap : Mat Nat) (lo hi : Nat)
    (hlo : lo ∈ dMap.data) (hhi : hi ∈ dMap.data)
    (hb : ∀ x ∈ dMap.data, lo ≤ x ∧ x ≤ hi) (hlt : lo < hi) :
    (∀ i : Nat, dMap.data[i]? = some hi →
      (colorizeDepthAuto_d8Bit dMap).data[i]? = some 255) ∧
    (∀ i : Nat, dMap.data[i]? = some lo →
      ∃ v, (colorizeDepthAuto_d8Bit dMap).data[i]? = some v ∧
        (v = 0 ↔ 510 * lo ≤ hi - lo)) ∧
    (lo = 0 → ∀ i : Nat, dMap.data[i]? = some lo →
      (colorizeDepthAuto_d8Bit dMap).data[i]? = some 0) := by
  have hmm := minMaxLoc_eq dMap lo hi hlo hhi hb
  have hq : (lo : ℚ) < (hi : ℚ) := by exact_mod_cast hlt
  have hd : (0 : ℚ) < (hi : ℚ) - (lo : ℚ) := by linarith
  have hlo0 : (0 : ℚ) ≤ (lo : ℚ) := Nat.cast_nonneg lo
  have key : ∀ i : Nat, dMap.data[i]? = some lo →
      ∃ v, (colorizeDepthAuto_d8Bit dMap).data[i]? = some v ∧
        (v = 0 ↔ 510 * lo ≤ hi - lo) := by
    intro i h
    refine ⟨convertTo8U (255 / ((hi : ℚ) - (lo : ℚ))) 0 lo, ?_, ?_⟩
    · simp only [colorizeDepthAuto_d8Bit, hmm, getElem?_convertTo, h, Option.map_some']
    · have hnn : (0 : ℚ) ≤ (lo : ℚ) * (255 / ((hi : ℚ) - (lo : ℚ))) :=
        mul_nonneg hlo0 (le_of_lt (div_pos (by norm_num) hd))
      rw [convertTo8U_eq_zero_iff hnn]
      have e : (lo : ℚ) * (255 / ((hi : ℚ) - (lo : ℚ))) = (lo : ℚ) * 255 / ((hi : ℚ) - (lo : ℚ)) := by
        rw [mul_div_assoc]
      rw [e, div_le_iff₀ hd]
      have hc : ((hi - lo : Nat) : ℚ) = (hi : ℚ) - (lo : ℚ) := by
        rw [Nat.cast_sub (le_of_lt hlt)]
      constructor
      · intro hle
        have : ((510 * lo : Nat) : ℚ) ≤ ((hi - lo : Nat) : ℚ) := by
          rw [hc]; push_cast; linarith
        exact_mod_cast this
      · intro hle
        have : ((510 * lo : Nat) : ℚ) ≤ ((hi - lo : Nat) : ℚ) := by exact_mod_cast hle
        rw [hc] at this
        push_cast at this
        linarith
  refine ⟨?_, key, ?_⟩
  · intro i h
    simp only [colorizeDepthAuto_d8Bit, hmm, getElem?_convertTo, h, Option.map_some']
    congr 1
    apply convertTo8U_eq_255
    rw [← mul_div_assoc, le_div_iff₀ hd]
    nlinarith
  · intro hz i h
    obtain ⟨v, hv, hiff⟩ := key i h
    have : v = 0 := hiff.mpr (by rw [hz]; simp)
    rw [hv, this]

/-- Witness for the amended C5: the frame with the samples 0, 7, 9. -/
theorem colorizeDepthAuto_d8Bit_scaling_witness :
    (∀ i : Nat, ([0, 7, 9] : List Nat)[i]? = some 9 →
      (colorizeDepthAuto_d8Bit ⟨1, 3, [0, 7, 9]⟩).data[i]? = some 255) ∧
    (∀ i : Nat, ([0, 7, 9] : List Nat)[i]? = some 0 →
      ∃ v, (colorizeDepthAuto_d8Bit ⟨1, 3, [0, 7, 9]⟩).data[i]? = some v ∧
        (v = 0 ↔ 510 * 0 ≤ 9 - 0)) ∧
    ((0 : Nat) = 0 → ∀ i : Nat, ([0, 7, 9] : List Nat)[i]? = some 0 →
      (colorizeDepthAuto_d8Bit ⟨1, 3, [0, 7, 9]⟩).data[i]? = some 0) :=
  colorizeDepthAuto_d8Bit_scaling ⟨1, 3, [0, 7, 9]⟩ 0 9 (by simp) (by simp)
    (by simp) (by norm_num)

/-! ## Render pass and render tick -/

theorem visualizeRGB_fields (s : OpenniVisualizer) :
    (visualizeRGB s).d_ = s.d_ ∧ (visualizeRGB s).dColor_ = s.dColor_ ∧
    (visualizeRGB s).rgb_ = s.rgb_ ∧ (visualizeRGB s).update_ = s.update_ ∧
    (visualizeRGB s).visualizeCloud_ = s.visualizeCloud_ ∧
    (visualizeRGB s).frameId = s.frameId ∧ (visualizeRGB s).written = s.written ∧
    (visualizeRGB s).shown =
      s.shown ++ (if s.rgb_.nonEmpty then [("rgb", s.rgb_)] else []) := by
  unfold visualizeRGB
  split_ifs <;> simp

theorem visualizeD_fields (s : OpenniVisualizer) :
    (visualizeD s).d_ = s.d_ ∧ (visualizeD s).dColor_ = s.dColor_ ∧
    (visualizeD s).rgb_ = s.rgb_ ∧ (visualizeD s).update_ = s.update_ ∧
    (visualizeD s).visualizeCloud_ = s.visualizeCloud_ ∧
    (visualizeD s).frameId = s.frameId ∧ (visualizeD s).written = s.written ∧
    (visualizeD s).shown =
      s.shown ++ (if s.dColor_.nonEmpty then [("d", s.dColor_)] else []) := by
  unfold visualizeD
  split_ifs <;> simp

theorem visualizePC_fields (s : OpenniVisualizer) :
    (visualizePC s).d_ = s.d_ ∧ (visualizePC s).dColor_ = s.dColor_ ∧
    (visualizePC s).rgb_ = s.rgb_ ∧ (visualizePC s).update_ = s.update_ ∧
    (visualizePC s).visualizeCloud_ = s.visualizeCloud_ ∧
    (visualizePC s).frameId = s.frameId ∧ (visualizePC s).written = s.written ∧
    (visualizePC s).shown = s.shown := by
  unfold visualizePC
  split_ifs <;> simp

theorem visualize_draw_fields (s : OpenniVisualizer) :
    (visualizePC (visualizeD (visualizeRGB s))).d_ = s.d_ ∧
    (visualizePC (visualizeD (visualizeRGB s))).dColor_ = s.dColor_ ∧
    (visualizePC (visualizeD (visualizeRGB s))).rgb_ = s.rgb_ ∧
    (visualizePC (visualizeD (visualizeRGB s))).update_ = s.update_ ∧
    (visualizePC (visualizeD (visualizeRGB s))).visualizeCloud_ = s.visualizeCloud_ ∧
    (visualizePC (visualizeD (visualizeRGB s))).frameId = s.frameId ∧
    (visualizePC (visualizeD (visualizeRGB s))).written = s.written ∧
    (visualizePC (visualizeD (visualizeRGB s))).shown =
      s.shown ++ (if s.rgb_.nonEmpty then [("rgb", s.rgb_)] else []) ++
        (if s.dColor_.nonEmpty then [("d", s.dColor_)] else []) := by
  obtain ⟨a1, a2, a3, a4, a5, a6, a7, a8⟩ := visualizeRGB_fields s
  obtain ⟨b1, b2, b3, b4, b5, b6, b7, b8⟩ := visualizeD_fields (visualizeRGB s)
  obtain ⟨c1, c2, c3, c4, c5, c6, c7, c8⟩ :=
    visualizePC_fields (visualizeD (visualizeRGB s))
  refine ⟨?_, ?_, ?_, ?_, ?_, ?_, ?_, ?_⟩
  · rw [c1, b1, a1]
  · rw [c2, b2, a2]
  · rw [c3, b3, a3]
  · rw [c4, b4, a4]
  · rw [c5, b5, a5]
  · rw [c6, b6, a6]
  · rw [c7, b7, a7]
  · rw [c8, b8, a8, a2]

theorem visualize__frameId (s : OpenniVisualizer) (key : Char) :
    (visualize_ s key).frameId = s.frameId + 1 := by
  obtain ⟨_, _, _, _, _, h6, _, _⟩ := visualize_draw_fields s
  unfold visualize_
  simp only []
  generalize visualizePC (visualizeD (visualizeRGB s)) = t at h6
  split_ifs <;> simp [h6]

theorem visualize__frames (s : OpenniVisualizer) (key : Char) :
    (visualize_ s key).d_ = s.d_ ∧ (visualize_ s key).dColor_ = s.dColor_ ∧
    (visualize_ s key).rgb_ = s.rgb_ ∧ (visualize_ s key).update_ = s.update_ ∧
    (visualize_ s key).visualizeCloud_ = s.visualizeCloud_ := by
  obtain ⟨h1, h2, h3, h4, h5, _, _, _⟩ := visualize_draw_fields s
  unfold visualize_
  simp only []
  generalize visualizePC (visualizeD (visualizeRGB s)) = t at h1 h2 h3 h4 h5
  split_ifs <;> simp [h1, h2, h3, h4, h5]

theorem visualize__shown (s : OpenniVisualizer) (key : Char) :
    (visualize_ s key).shown =
      s.shown ++ (if s.rgb_.nonEmpty then [("rgb", s.rgb_)] else []) ++
        (if s.dColor_.nonEmpty then [("d", s.dColor_)] else []) := by
  obtain ⟨_, _, _, _, _, _, _, h8⟩ := visualize_draw_fields s
  unfold visualize_
  simp only []
  rw [← h8]
  generalize visualizePC (visualizeD (visualizeRGB s)) = t
  split_ifs <;> rfl

theorem visualize__written_save (s : OpenniVisualizer) :
    (visualize_ s 's').written =
      s.written ++
        (if s.rgb_.nonEmpty
          then [(framePrefix s.frameId ++ "_rgb.png", FileContent.color s.rgb_)] else []) ++
        (if s.dColor_.nonEmpty
          then [(framePrefix s.frameId ++ "_d.png", FileContent.depth s.d_)] else []) := by
  obtain ⟨h1, h2, h3, _, _, h6, h7, _⟩ := visualize_draw_fields s
  unfold visualize_
  simp only []
  generalize visualizePC (visualizeD (visualizeRGB s)) = t at h1 h2 h3 h6 h7
  rw [← h1, ← h2, ← h3, ← h6, ← h7]
  split_ifs <;> simp_all

theorem visualize__written_other (s : OpenniVisualizer) (key : Char) (h : key ≠ 's') :
    (visualize_ s key).written = s.written := by
  obtain ⟨_, _, _, _, _, _, h7, _⟩ := visualize_draw_fields s
  unfold visualize_
  simp only [if_neg h]
  exact h7

theorem foldl_depth_cb_append (jet : Nat → Vec3b) (s : OpenniVisualizer)
    (fs : List DepthArgs) (f : DepthArgs) :
    (fs ++ [f]).foldl (depth_cb jet) s = depth_cb jet (fs.foldl (depth_cb jet) s) f := by
  rw [List.foldl_append]
  rfl

theorem foldl_depth_cb_rest (jet : Nat → Vec3b) (fs : List DepthArgs) (s : OpenniVisualizer) :
    (fs.foldl (depth_cb jet) s).rgb_ = s.rgb_ ∧
    (fs.foldl (depth_cb jet) s).shown = s.shown ∧
    (fs.foldl (depth_cb jet) s).written = s.written ∧
    (fs.foldl (depth_cb jet) s).frameId = s.frameId := by
  induction fs generalizing s with
  | nil => exact ⟨rfl, rfl, rfl, rfl⟩
  | cons a as ih =>
    rw [List.foldl_cons]
    obtain ⟨h1, h2, h3, h4⟩ := ih (depth_cb jet s a)
    exact ⟨h1, h2, h3, h4⟩

theorem colorizeDepth_nonEmpty (jet : Nat → Vec3b) (a : DepthArgs) (min max : ℚ)
    (h : 0 < a.w ∧ 0 < a.h) : (colorizeDepth jet a.dMap min max).nonEmpty = true := by
  simp [Mat.nonEmpty, colorizeDepth, applyColorMap, colorizeDepth_d8Bit, Mat.convertTo,
    DepthArgs.dMap, h.1, h.2]

/-- C1. Latest-wins: after the depth callbacks for the non-empty frames
`fs ++ [f]` (so at least one), run one after the other with no render tick in
between, the flag `update_` is set, `d_` is the last frame `f` and `dColor_` is
`colorizeDepth(f, 30, 4000)`; the next render tick runs `visualize_` once (the
counter `frameId` goes up by one), shows after the colour image exactly the
colourised last frame, keeps the last frame stored and leaves `update_`
false. -/
theorem depth_cb_latest_wins (jet : Nat → Vec3b) (s : OpenniVisualizer)
    (fs : List DepthArgs) (f : DepthArgs) (key : Char)
    (hne : ∀ a ∈ fs ++ [f], 0 < a.w ∧ 0 < a.h) :
    ((fs ++ [f]).foldl (depth_cb jet) s).update_ = true ∧
    ((fs ++ [f]).foldl (depth_cb jet) s).d_ = f.dMap ∧
    ((fs ++ [f]).foldl (depth_cb jet) s).dColor_ = colorizeDepth jet f.dMap 30 4000 ∧
    renderTick ((fs ++ [f]).foldl (depth_cb jet) s) key =
      { visualize_ ((fs ++ [f]).foldl (depth_cb jet) s) key with update_ := false } ∧
    (renderTick ((fs ++ [f]).foldl (depth_cb jet) s) key).frameId = s.frameId + 1 ∧
    (renderTick ((fs ++ [f]).foldl (depth_cb jet) s) key).shown =
      s.shown ++ (if s.rgb_.nonEmpty then [("rgb", s.rgb_)] else []) ++
        [("d", colorizeDepth jet f.dMap 30 4000)] ∧
    (renderTick ((fs ++ [f]).foldl (depth_cb jet) s) key).d_ = f.dMap ∧
    (renderTick ((fs ++ [f]).foldl (depth_cb jet) s) key).dColor_ =
      colorizeDepth jet f.dMap 30 4000 ∧
    (renderTick ((fs ++ [f]).foldl (depth_cb jet) s) key).update_ = false := by
  have hf : 0 < f.w ∧ 0 < f.h := hne f (by simp)
  obtain ⟨r1, r2, _, r4⟩ := foldl_depth_cb_rest jet fs s
  rw [foldl_depth_cb_append]
  generalize fs.foldl (depth_cb jet) s = t at r1 r2 r4
  have hu : (depth_cb jet t f).update_ = true := rfl
  have hd : (depth_cb jet t f).d_ = f.dMap := rfl
  have hc : (depth_cb jet t f).dColor_ = colorizeDepth jet f.dMap 30 4000 := rfl
  have hr : (depth_cb jet t f).rgb_ = s.rgb_ := r1
  have hs : (depth_cb jet t f).shown = s.shown := r2
  have hi : (depth_cb jet t f).frameId = s.frameId := r4
  have ht : renderTick (depth_cb jet t f) key =
      { visualize_ (depth_cb jet t f) key with update_ := false } := by
    unfold renderTick
    rw [if_pos hu]
  obtain ⟨v1, v2, _, _, _⟩ := visualize__frames (depth_cb jet t f) key
  refine ⟨hu, hd, hc, ht, ?_, ?_, ?_, ?_, ?_⟩
  · rw [ht]
    show (visualize_ (depth_cb jet t f) key).frameId = s.frameId + 1
    rw [visualize__frameId, hi]
  · rw [ht]
    show (visualize_ (depth_cb jet t f) key).shown = _
    rw [visualize__shown, hs, hr, hc, colorizeDepth_nonEmpty jet f 30 4000 hf]
    rfl
  · rw [ht]
    show (visualize_ (depth_cb jet t f) key).d_ = _
    rw [v1, hd]
  · rw [ht]
    show (visualize_ (depth_cb jet t f) key).dColor_ = _
    rw [v2, hc]
  · rw [ht]

/-- Witness for C1: two callbacks on a freshly constructed visualizer. -/
theorem depth_cb_latest_wins_witness :
    (renderTick (List.foldl (depth_cb (fun _ => (0, 0, 0)))
        (OpenniVisualizer.construct false)
        ([DepthArgs.mk [5] 1 1] ++ [DepthArgs.mk [100, 200] 2 1])) 'x').d_ =
      Mat.mk 1 2 [100, 200] ∧
    (renderTick (List.foldl (depth_cb (fun _ => (0, 0, 0)))
        (OpenniVisualizer.construct false)
        ([DepthArgs.mk [5] 1 1] ++ [DepthArgs.mk [100, 200] 2 1])) 'x').frameId = 1 :=
  have h := depth_cb_latest_wins (fun _ => (0, 0, 0)) (OpenniVisualizer.construct false)
    [DepthArgs.mk [5] 1 1] (DepthArgs.mk [100, 200] 2 1) 'x' (by decide)
  ⟨h.2.2.2.2.2.2.1, h.2.2.2.2.1⟩

/-- C2. Idempotent dirty-clearing: after a render tick the flag `update_` is
false, and a second render tick with nothing in between returns the state
unchanged: no call of `visualize_`, nothing shown, nothing written, the frame
counter as it was. -/
theorem renderTick_idempotent (s : OpenniVisualizer) (key1 key2 : Char) :
    (renderTick s key1).update_ = false ∧
    renderTick (renderTick s key1) key2 = renderTick s key1 ∧
    (renderTick (renderTick s key1) key2).shown = (renderTick s key1).shown ∧
    (renderTick (renderTick s key1) key2).written = (renderTick s key1).written ∧
    (renderTick (renderTick s key1) key2).frameId = (renderTick s key1).frameId := by
  have h1 : (renderTick s key1).update_ = false := by
    unfold renderTick
    split_ifs with h
    · rfl
    · simpa using h
  have h2 : renderTick (renderTick s key1) key2 = renderTick s key1 := by
    generalize renderTick s key1 = t at h1
    unfold renderTick
    rw [h1]
    rfl
  exact ⟨h1, h2, by rw [h2], by rw [h2], by rw [h2]⟩

/-! ## Names of the saved files -/

theorem digitChar_spec (d : Nat) (h : d < 10) :
    (digitChar d).toNat - 48 = d ∧ (digitChar d).isDigit = true := by
  interval_cases d <;> exact ⟨rfl, rfl⟩

theorem foldl_decimal_digits (l : List Nat) (hl : ∀ d ∈ l, d < 10) :
    (l.map digitChar).foldr (fun c acc => 10 * acc + (c.toNat - 48)) 0 = Nat.ofDigits 10 l := by
  induction l with
  | nil => rfl
  | cons d ds ih =>
    rw [List.map_cons, List.foldr_cons, ih (fun x hx => hl x (List.mem_cons_of_mem d hx)),
      Nat.ofDigits_cons, (digitChar_spec d (hl d (List.mem_cons_self d ds))).1]
    ring

theorem decimalValue_decimal (n : Nat) : decimalValue (decimal n) = n := by
  unfold decimal
  split_ifs with h
  · rw [h]; rfl
  · unfold decimalValue
    rw [List.foldl_map]
    have e := foldl_decimal_digits (Nat.digits 10 n)
      (fun d hd => Nat.digits_lt_base (by norm_num) hd)
    rw [List.foldr_map] at e
    rw [List.foldl_reverse]
    rw [e, Nat.ofDigits_digits]

theorem decimal_isDigit (n : Nat) : ∀ c ∈ decimal n, c.isDigit = true := by
  unfold decimal
  split_ifs with h
  · intro c hc
    rw [List.mem_singleton] at hc
    rw [hc]; rfl
  · intro c hc
    rw [List.mem_map] at hc
    obtain ⟨d, hd, rfl⟩ := hc
    rw [List.mem_reverse] at hd
    exact (digitChar_spec d (Nat.digits_lt_base (by norm_num) hd)).2

theorem decimal_length_le (n : Nat) (h : n < 10 ^ 9) : (decimal n).length ≤ 9 := by
  unfold decimal
  split_ifs with h0
  · simp
  · rw [List.length_map, List.length_reverse, Nat.digits_len 10 n (by norm_num) h0]
    have := Nat.log_lt_of_lt_pow h0 h
    omega

theorem decimalValue_zeros (k : Nat) (txt : List Char) :
    decimalValue (List.replicate k '0' ++ txt) = decimalValue txt := by
  unfold decimalValue
  rw [List.foldl_append]
  congr 1
  induction k with
  | zero => rfl
  | succ m ih =>
    rw [List.replicate_succ, List.foldl_cons]
    exact ih

theorem setw_setfill_frameId (k : Nat) (h : k < 10 ^ 9) :
    (setw_setfill 9 '0' (decimal k)).length = 9 ∧
    (∀ c ∈ setw_setfill 9 '0' (decimal k), c.isDigit = true) ∧
    decimalValue (setw_setfill 9 '0' (decimal k)) = k := by
  have hl := decimal_length_le k h
  unfold setw_setfill
  refine ⟨?_, ?_, ?_⟩
  · rw [List.length_append, List.length_replicate]
    omega
  · intro c hc
    rcases List.mem_append.mp hc with hc | hc
    · rw [(List.mem_replicate.mp hc).2]; rfl
    · exact decimal_isDigit k c hc
  · rw [decimalValue_zeros, decimalValue_decimal]

theorem framePrefix_append (k : Nat) (tail : String) :
    framePrefix k ++ tail =
      "./frame_" ++ String.mk (setw_setfill 9 '0' (decimal k)) ++ ("_" ++ tail) := by
  unfold framePrefix
  rw [String.append_assoc]

theorem foldl_visualize__frameId (keys : List Char) (v : OpenniVisualizer) :
    (keys.foldl visualize_ v).frameId = v.frameId + keys.length := by
  induction keys generalizing v with
  | nil => rfl
  | cons key ks ih =>
    rw [List.foldl_cons, ih (visualize_ v key), visualize__frameId, List.length_cons]
    omega

/-- C9. Save file naming by render-pass counter: `frameId` counts the calls of
`visualize_` whatever their keys; when the render pass with index `k < 10^9`
(the value of `frameId` on entry) is made with key `'s'` and non-empty colour
and depth frames, exactly two files are written: the colour frame `rgb_` under
`"./frame_" ++ ds ++ "__rgb.png"` and the raw depth frame `d_` under
`"./frame_" ++ ds ++ "__d.png"`, where `ds` is a text of exactly 9 decimal
digits denoting `k`; the counter becomes `k + 1`; a pass with any other key
writes nothing and also moves the counter to `k + 1`. -/
theorem visualize__save_file_names (s : OpenniVisualizer) (k : Nat) (hk : k < 10 ^ 9)
    (hid : s.frameId = k) (hrgb : s.rgb_.nonEmpty = true)
    (hd : s.dColor_.nonEmpty = true) :
    (∀ (keys : List Char) (v : OpenniVisualizer),
      (keys.foldl visualize_ v).frameId = v.frameId + keys.length) ∧
    (∃ ds : List Char, ds.length = 9 ∧ (∀ c ∈ ds, c.isDigit = true) ∧
      decimalValue ds = k ∧
      (visualize_ s 's').written = s.written ++
        [("./frame_" ++ String.mk ds ++ "__rgb.png", FileContent.color s.rgb_),
         ("./frame_" ++ String.mk ds ++ "__d.png", FileContent.depth s.d_)]) ∧
    (visualize_ s 's').frameId = k + 1 ∧
    (∀ key : Char, key ≠ 's' →
      (visualize_ s key).written = s.written ∧ (visualize_ s key).frameId = k + 1) := by
  obtain ⟨h1, h2, h3⟩ := setw_setfill_frameId k hk
  refine ⟨foldl_visualize__frameId, ⟨setw_setfill 9 '0' (decimal k), h1, h2, h3, ?_⟩, ?_, ?_⟩
  · rw [visualize__written_save, hrgb, hd, hid, framePrefix_append, framePrefix_append]
    simp only [if_true, List.append_assoc, List.singleton_append]
    rfl
  · rw [visualize__frameId, hid]
  · intro key hkey
    exact ⟨visualize__written_other s key hkey, by rw [visualize__frameId, hid]⟩

theorem framePrefix_42 : framePrefix 42 = "./frame_000000042_" := by
  have e : decimal 42 = ['4', '2'] := by
    norm_num [decimal]
    decide
  unfold framePrefix
  rw [e]
  decide

/-- Witness for C9: the 43rd render pass of a visualizer holding 1 x 1 frames
writes `./frame_000000042__rgb.png` and `./frame_000000042__d.png`. -/
theorem visualize__save_file_names_witness :
    (visualize_ { OpenniVisualizer.construct false with
        frameId := 42, rgb_ := Mat.mk 1 1 [(1, 2, 3)], dColor_ := Mat.mk 1 1 [(0, 0, 0)],
        d_ := Mat.mk 1 1 [100] } 's').frameId = 42 + 1 ∧
    (visualize_ { OpenniVisualizer.construct false with
        frameId := 42, rgb_ := Mat.mk 1 1 [(1, 2, 3)], dColor_ := Mat.mk 1 1 [(0, 0, 0)],
        d_ := Mat.mk 1 1 [100] } 's').written =
      [("./frame_000000042__rgb.png", FileContent.color (Mat.mk 1 1 [(1, 2, 3)])),
       ("./frame_000000042__d.png", FileContent.depth (Mat.mk 1 1 [100]))] := by
  refine ⟨(visualize__save_file_names { OpenniVisualizer.construct false with
      frameId := 42, rgb_ := Mat.mk 1 1 [(1, 2, 3)], dColor_ := Mat.mk 1 1 [(0, 0, 0)],
      d_ := Mat.mk 1 1 [100] } 42 (by norm_num) rfl rfl rfl).2.2.1, ?_⟩
  rw [visualize__written_save]
  simp only [OpenniVisualizer.construct, Mat.nonEmpty, framePrefix_42]
  decide

/-! ## Interleavings: invariants of the frame store -/

theorem renderTick_frames (s : OpenniVisualizer) (key : Char) :
    (renderTick s key).d_ = s.d_ ∧ (renderTick s key).dColor_ = s.dColor_ ∧
    (renderTick s key).rgb_ = s.rgb_ := by
  obtain ⟨h1, h2, h3, _, _⟩ := visualize__frames s key
  unfold renderTick
  split_ifs
  · exact ⟨h1, h2, h3⟩
  · exact ⟨rfl, rfl, rfl⟩

theorem renderTick_update_ (s : OpenniVisualizer) (key : Char) :
    (renderTick s key).update_ = false := by
  unfold renderTick
  split_ifs with h
  · rfl
  · simpa using h

theorem rgb_cb__frames (s : OpenniVisualizer) (rgb : OpenniImage) :
    (rgb_cb_ s rgb).d_ = s.d_ ∧ (rgb_cb_ s rgb).dColor_ = s.dColor_ ∧
    (rgb_cb_ s rgb).update_ = s.update_ := by
  unfold rgb_cb_
  simp only []
  split_ifs <;> exact ⟨rfl, rfl, rfl⟩

theorem exec_depth_pair (jet : Nat → Vec3b) (s t : Sys) (b : Block)
    (h : exec jet s b = some t)
    (hs : s.vis.d_.rows = s.vis.dColor_.rows ∧ s.vis.d_.cols = s.vis.dColor_.cols) :
    t.vis.d_.rows = t.vis.dColor_.rows ∧ t.vis.d_.cols = t.vis.dColor_.cols := by
  cases b with
  | depth_cb_store a =>
    simp only [exec, Option.some.injEq] at h
    rw [← h]
    exact ⟨rfl, rfl⟩
  | update =>
    simp only [exec] at h
    split_ifs at h
    simp only [Option.some.injEq] at h
    rw [← h]
    exact hs
  | rgb_cb_ rgb =>
    simp only [exec, Option.some.injEq] at h
    obtain ⟨h1, h2, _⟩ := rgb_cb__frames s.vis rgb
    rw [← h]
    show (rgb_cb_ s.vis rgb).d_.rows = (rgb_cb_ s.vis rgb).dColor_.rows ∧
      (rgb_cb_ s.vis rgb).d_.cols = (rgb_cb_ s.vis rgb).dColor_.cols
    rw [h1, h2]
    exact hs
  | renderTick key =>
    simp only [exec, Option.some.injEq] at h
    obtain ⟨h1, h2, _⟩ := renderTick_frames s.vis key
    rw [← h]
    show (renderTick s.vis key).d_.rows = (renderTick s.vis key).dColor_.rows ∧
      (renderTick s.vis key).d_.cols = (renderTick s.vis key).dColor_.cols
    rw [h1, h2]
    exact hs

theorem execAll_depth_pair (jet : Nat → Vec3b) (bs : List Block) (s t : Sys)
    (h : execAll jet s bs = some t)
    (hs : s.vis.d_.rows = s.vis.dColor_.rows ∧ s.vis.d_.cols = s.vis.dColor_.cols) :
    t.vis.d_.rows = t.vis.dColor_.rows ∧ t.vis.d_.cols = t.vis.dColor_.cols := by
  induction bs generalizing s with
  | nil =>
    simp only [execAll, Option.some.injEq] at h
    rw [← h]
    exact hs
  | cons b bs ih =>
    simp only [execAll] at h
    cases hb : exec jet s b with
    | none => rw [hb] at h; cases h
    | some u =>
      rw [hb] at h
      exact ih u h (exec_depth_pair jet s u b hb hs)

theorem nonEmpty_congr {α β : Type} (a : Mat α) (b : Mat β) (hr : a.rows = b.rows)
    (hc : a.cols = b.cols) : a.nonEmpty = b.nonEmpty := by
  unfold Mat.nonEmpty
  rw [hr, hc]

/-- C10. Depth pair invariant: in every state reached from the constructor by a
schedule of locked blocks (depth stores with non-empty frames, `update()`,
colour callbacks, render ticks) `d_` and `dColor_` have the same number of rows
and of columns; the constructor leaves both empty, a depth callback with a
`w x h` frame makes both `h x w`, a render tick changes neither; hence a render
pass with key `'s'` in such a state writes the raw depth file exactly when `d_`
is non-empty. -/
theorem depth_pair_invariant (jet : Nat → Vec3b) (visualizeCloud : Bool) (bs : List Block)
    (_hne : ∀ b ∈ bs, b.nonEmptyFrame = true) (s : Sys)
    (h : execAll jet (Sys.construct visualizeCloud) bs = some s) :
    (s.vis.d_.rows = s.vis.dColor_.rows ∧ s.vis.d_.cols = s.vis.dColor_.cols) ∧
    ((OpenniVisualizer.construct visualizeCloud).d_.nonEmpty = false ∧
      (OpenniVisualizer.construct visualizeCloud).dColor_.nonEmpty = false) ∧
    (∀ (v : OpenniVisualizer) (a : DepthArgs),
      (depth_cb jet v a).d_.rows = a.h ∧ (depth_cb jet v a).d_.cols = a.w ∧
      (depth_cb jet v a).dColor_.rows = a.h ∧ (depth_cb jet v a).dColor_.cols = a.w) ∧
    (∀ (v : OpenniVisualizer) (key : Char),
      (renderTick v key).d_ = v.d_ ∧ (renderTick v key).dColor_ = v.dColor_) ∧
    (visualize_ s.vis 's').written =
      s.vis.written ++
        (if s.vis.rgb_.nonEmpty
          then [(framePrefix s.vis.frameId ++ "_rgb.png", FileContent.color s.vis.rgb_)]
          else []) ++
        (if s.vis.d_.nonEmpty
          then [(framePrefix s.vis.frameId ++ "_d.png", FileContent.depth s.vis.d_)]
          else []) := by
  have inv := execAll_depth_pair jet bs (Sys.construct visualizeCloud) s h ⟨rfl, rfl⟩
  refine ⟨inv, ⟨rfl, rfl⟩, ?_, ?_, ?_⟩
  · intro v a
    exact ⟨rfl, rfl, rfl, rfl⟩
  · intro v key
    exact ⟨(renderTick_frames v key).1, (renderTick_frames v key).2.1⟩
  · rw [visualize__written_save, nonEmpty_congr s.vis.d_ s.vis.dColor_ inv.1 inv.2]

/-- Witness for C10: a depth callback, a colour callback and a render tick. -/
theorem depth_pair_invariant_witness :
    ∃ s : Sys,
      execAll (fun _ => (0, 0, 0)) (Sys.construct false)
        [Block.depth_cb_store (DepthArgs.mk [100, 200] 2 1), Block.update,
         Block.rgb_cb_ (OpenniImage.mk 1 1 [(1, 2, 3)]), Block.renderTick 'x'] = some s ∧
      s.vis.d_.rows = s.vis.dColor_.rows ∧ s.vis.d_.cols = s.vis.dColor_.cols :=
  ⟨_, rfl, (depth_pair_invariant (fun _ => (0, 0, 0)) false
    [Block.depth_cb_store (DepthArgs.mk [100, 200] 2 1), Block.update,
     Block.rgb_cb_ (OpenniImage.mk 1 1 [(1, 2, 3)]), Block.renderTick 'x']
    (by decide) _ rfl).1⟩

/-! ## Interleavings: the dirty flag -/

theorem exec_fresh_flag (jet : Nat → Vec3b) (s t : Sys) (b : Block)
    (h : exec jet s b = some t)
    (hs : s.depthFresh = true → s.vis.update_ = true ∨ 0 < s.pendingUpdate) :
    t.depthFresh = true → t.vis.update_ = true ∨ 0 < t.pendingUpdate := by
  cases b with
  | depth_cb_store a =>
    simp only [exec, Option.some.injEq] at h
    rw [← h]
    intro _
    exact Or.inr (Nat.succ_pos _)
  | update =>
    simp only [exec] at h
    split_ifs at h
    simp only [Option.some.injEq] at h
    rw [← h]
    intro _
    exact Or.inl rfl
  | rgb_cb_ rgb =>
    simp only [exec, Option.some.injEq] at h
    rw [← h]
    intro hf
    rcases hs hf with hu | hp
    · exact Or.inl (by rw [← hu]; exact (rgb_cb__frames s.vis rgb).2.2)
    · exact Or.inr hp
  | renderTick key =>
    simp only [exec, Option.some.injEq] at h
    rw [← h]
    intro hf
    have hf2 : (s.depthFresh && !s.vis.update_) = true := hf
    rw [Bool.and_eq_true] at hf2
    have hu : s.vis.update_ = false := by simpa using hf2.2
    rcases hs hf2.1 with h1 | h1
    · rw [hu] at h1; cases h1
    · exact Or.inr h1

theorem execAll_fresh_flag (jet : Nat → Vec3b) (bs : List Block) (s t : Sys)
    (h : execAll jet s bs = some t)
    (hs : s.depthFresh = true → s.vis.update_ = true ∨ 0 < s.pendingUpdate) :
    t.depthFresh = true → t.vis.update_ = true ∨ 0 < t.pendingUpdate := by
  induction bs generalizing s with
  | nil =>
    simp only [execAll, Option.some.injEq] at h
    rw [← h]
    exact hs
  | cons b bs ih =>
    simp only [execAll] at h
    cases hb : exec jet s b with
    | none => rw [hb] at h; cases h
    | some u =>
      rw [hb] at h
      exact ih u h (exec_fresh_flag jet s u b hb hs)

/-- C6 as stated fails: after the store block of the first `depth_cb` the mutex
is free, `d_`/`dColor_` hold the new frame, and `update_` is still false; a
render tick scheduled at that point does nothing. -/
theorem depth_cb_store_flag_still_clear :
    ∃ s : Sys,
      execAll (fun _ => (0, 0, 0)) (Sys.construct true)
        [Block.depth_cb_store (DepthArgs.mk [100] 1 1)] = some s ∧
      s.depthFresh = true ∧ s.vis.d_ = Mat.mk 1 1 [100] ∧ s.vis.update_ = false ∧
      renderTick s.vis 'x' = s.vis :=
  ⟨_, rfl, rfl, rfl, rfl, rfl⟩

/-- C6, amended. Publish is two critical sections: in every state reached from
the constructor by a schedule of locked blocks, if `d_`/`dColor_` were
overwritten by a depth callback after the last render pass, then `update_` is
true or some `depth_cb` stands between its store block and its `update()`; so
whenever no callback is in that gap, a freshly stored depth frame comes with
`update_ == true`, and the pending `update()` sets the flag. -/
theorem fresh_depth_flagged_or_pending (jet : Nat → Vec3b) (visualizeCloud : Bool)
    (bs : List Block) (s : Sys)
    (h : execAll jet (Sys.construct visualizeCloud) bs = some s)
    (hf : s.depthFresh = true) :
    (s.vis.update_ = true ∨ 0 < s.pendingUpdate) ∧
    (s.pendingUpdate = 0 → s.vis.update_ = true) ∧
    (0 < s.pendingUpdate →
      ∃ t : Sys, exec jet s Block.update = some t ∧ t.vis.update_ = true ∧
        t.depthFresh = true) := by
  have inv := execAll_fresh_flag jet bs (Sys.construct visualizeCloud) s h
    (fun hc => by cases hc) hf
  refine ⟨inv, ?_, ?_⟩
  · intro h0
    rcases inv with h1 | h1
    · exact h1
    · omega
  · intro hp
    refine ⟨⟨update s.vis, s.pendingUpdate - 1, s.depthFresh⟩, ?_, rfl, hf⟩
    simp only [exec, if_pos hp]

/-- Witness for the amended C6: one whole depth callback. -/
theorem fresh_depth_flagged_or_pending_witness :
    ∃ s : Sys,
      execAll (fun _ => (0, 0, 0)) (Sys.construct true)
        [Block.depth_cb_store (DepthArgs.mk [100] 1 1), Block.update] = some s ∧
      s.depthFresh = true ∧ s.pendingUpdate = 0 ∧ s.vis.update_ = true :=
  ⟨_, rfl, rfl, rfl, ((fresh_depth_flagged_or_pending (fun _ => (0, 0, 0)) true
    [Block.depth_cb_store (DepthArgs.mk [100] 1 1), Block.update] _ rfl rfl).2.1 rfl)⟩

/-! ## Colour callback -/

/-- C7, what the code does: `rgb_cb_` stores the `h x w` channel-swapped copy of
the frame in `rgb_` and leaves `update_` as it was; on a freshly constructed
visualizer the flag is therefore still false after a colour frame, and the next
render tick shows nothing. -/
theorem rgb_cb__keeps_update_ :
    (∀ (s : OpenniVisualizer) (rgb : OpenniImage),
      (rgb_cb_ s rgb).rgb_ =
        Mat.mk rgb.getHeight rgb.getWidth (rgb.pixels.map (fun p => (p.2.2, p.2.1, p.1))) ∧
      (rgb_cb_ s rgb).update_ = s.update_) ∧
    (rgb_cb_ (OpenniVisualizer.construct true) (OpenniImage.mk 1 1 [(1, 2, 3)])).rgb_ =
      Mat.mk 1 1 [(3, 2, 1)] ∧
    (rgb_cb_ (OpenniVisualizer.construct true) (OpenniImage.mk 1 1 [(1, 2, 3)])).update_ =
      false ∧
    (renderTick (rgb_cb_ (OpenniVisualizer.construct true) (OpenniImage.mk 1 1 [(1, 2, 3)]))
      'x').shown = [] := by
  refine ⟨?_, rfl, rfl, rfl⟩
  intro s rgb
  refine ⟨?_, (rgb_cb__frames s rgb).2.2⟩
  unfold rgb_cb_
  simp only []
  rfl

/-! ## Shutdown -/

theorem plainLoop_running (waitKey : Nat → Char) (fuel i : Nat) (s : OpenniVisualizer) :
    (plainLoop waitKey fuel i s).2 = false := by
  induction fuel generalizing i s with
  | zero => rfl
  | succ n ih => exact ih (i + 1) (renderTick s (waitKey i))

/-- C8, what the code does: with `visualizeCloud_` false the loop of
`visualizerThread` is `while (42)`: whatever the stop signal says and however
many iterations are run, the loop has not been left; with the stop signal
raised from the start and `update_` set it still makes a render pass; and
`run()` never gets past its idle loop to `run_cleanup_impl()` or the join.
With `visualizeCloud_` true the loop is left at the head of the first
iteration at which the viewer reports that it was stopped. -/
theorem visualizerThread_no_stop_check :
    (∀ (wasStopped : Nat → Bool) (waitKey : Nat → Char) (fuel : Nat) (s : OpenniVisualizer),
      (visualizerThread wasStopped waitKey fuel { s with visualizeCloud_ := false }).2 = false) ∧
    (visualizerThread (fun _ => true) (fun _ => 'x') 1
      { OpenniVisualizer.construct false with update_ := true }).1.frameId = 1 ∧
    (∀ shutdown : List Bool,
      run_trace shutdown = RunPc.spawnThread ∨ run_trace shutdown = RunPc.run_impl ∨
        run_trace shutdown = RunPc.idle) ∧
    (∀ (wasStopped : Nat → Bool) (waitKey : Nat → Char) (fuel i : Nat) (s : OpenniVisualizer),
      wasStopped i = true → cloudLoop wasStopped waitKey (fuel + 1) i s = (s, true)) := by
  refine ⟨?_, rfl, ?_, ?_⟩
  · intro wasStopped waitKey fuel s
    unfold visualizerThread
    simp only [Bool.false_eq_true, if_false]
    exact plainLoop_running waitKey fuel 0 _
  · intro shutdown
    unfold run_trace
    induction shutdown using List.reverseRecOn with
    | nil => exact Or.inl rfl
    | append_singleton l b ih =>
      rw [List.foldl_append]
      simp only [List.foldl_cons, List.foldl_nil]
      rcases ih with h | h | h <;> rw [h]
      · exact Or.inr (Or.inl rfl)
      · exact Or.inr (Or.inr rfl)
      · exact Or.inr (Or.inr rfl)
  · intro wasStopped waitKey fuel i s hstop
    simp only [cloudLoop, hstop, if_true]

end cudaPcl
